import Mathlib

/-!
# Verification of the content-moderation core

Shallow embedding of the content-moderation repository
(`moderation/processor.py`, `moderation/classifier.py`, `moderation/utils.py`,
`moderation/train_model.py`, `models.py`) together with proofs settling the
frozen claims about its specification.

Modelling conventions:
* Python text is modelled as `List Char`; the embedding covers the ASCII
  behaviour of `str.lower`, `str.split`, `\w`, `\s`, `\d`.
* Python floats are modelled as `ℚ` (the claims are about threshold
  comparisons, never about rounding).
* The relational store is a record of row lists; a SQLAlchemy session is
  modelled by building the rows and appending them all at `commit`;
  `rollback` returns the original store.  Fallible external steps
  (flush/commit/classifier exceptions) are driven by explicit environment
  fields, so "any exception during processing" is quantified over.
* `random.random()` is modelled as a stream `Nat → ℚ` of draws, each in
  `[0, 1)` (the documented range); `random.uniform a b = a + (b - a) * r`.
* Timestamps are modelled as a day index plus a tick; the SQL predicate
  `between(start_of_day, end_of_day)` becomes equality of the day index.
-/

namespace ContentModeration

/-! ## Preprocessing (`moderation/utils.py`, `preprocess_text`, lines 12-46) -/

/-- ASCII whitespace recognised by Python `str.split()` / `\s`. -/
def isPySpace (c : Char) : Bool :=
  c == ' ' || c == '\t' || c == '\n' || c == '\x0b' || c == '\x0c' || c == '\r'

/-- Characters matched by the regex class `\w` (ASCII): alphanumerics and
underscore. -/
def isWordChar (c : Char) : Bool :=
  c.isAlphanum || c == '_'

/-- ASCII lowering of one character, as done by Python `str.lower()`.
Written as an explicit table over the 26 uppercase letters so that it
computes by `decide` and its idempotence is provable by case analysis. -/
def pyLowerChar (c : Char) : Char :=
  match c with
  | 'A' => 'a' | 'B' => 'b' | 'C' => 'c' | 'D' => 'd' | 'E' => 'e'
  | 'F' => 'f' | 'G' => 'g' | 'H' => 'h' | 'I' => 'i' | 'J' => 'j'
  | 'K' => 'k' | 'L' => 'l' | 'M' => 'm' | 'N' => 'n' | 'O' => 'o'
  | 'P' => 'p' | 'Q' => 'q' | 'R' => 'r' | 'S' => 's' | 'T' => 't'
  | 'U' => 'u' | 'V' => 'v' | 'W' => 'w' | 'X' => 'x' | 'Y' => 'y'
  | 'Z' => 'z'
  | c => c

/-- `text.lower()` (line 26). -/
def pyLower (s : List Char) : List Char :=
  s.map pyLowerChar

/-- `text.split()` with no separator: maximal runs of non-whitespace, empty
runs dropped.  A fuel argument (instantiated with the list length) keeps the
recursion structural so the function computes by `rfl`/`decide`. -/
def pySplitFuel : Nat → List Char → List (List Char)
  | 0, _ => []
  | _, [] => []
  | fuel + 1, c :: rest =>
    if isPySpace c then pySplitFuel fuel rest
    else (c :: rest.takeWhile (fun d => !isPySpace d)) ::
      pySplitFuel fuel (rest.dropWhile (fun d => !isPySpace d))

def pySplit (s : List Char) : List (List Char) :=
  pySplitFuel s.length s

/-- `' '.join(tokens)`. -/
def joinSp : List (List Char) → List Char
  | [] => []
  | [t] => t
  | t :: ts => t ++ ' ' :: joinSp ts

/-- `' '.join(text.split())` — whitespace collapsing (lines 29 and 44). -/
def collapseWS (s : List Char) : List Char :=
  joinSp (pySplit s)

/-- One attempt of the regex alternation `https?://\S+|www\.\S+` at the head
of the list.  Returns the remainder after the (greedy) match, or `none`. -/
def matchUrlAt (s : List Char) : Option (List Char) :=
  if s.take 8 = "https://".toList then
    match s.drop 8 with
    | [] => none
    | d :: tail => if isPySpace d then none
        else some ((d :: tail).dropWhile (fun c => !isPySpace c))
  else if s.take 7 = "http://".toList then
    match s.drop 7 with
    | [] => none
    | d :: tail => if isPySpace d then none
        else some ((d :: tail).dropWhile (fun c => !isPySpace c))
  else if s.take 4 = "www.".toList then
    match s.drop 4 with
    | [] => none
    | d :: tail => if isPySpace d then none
        else some ((d :: tail).dropWhile (fun c => !isPySpace c))
  else none

/-- `re.sub(r'https?://\S+|www\.\S+', '[URL]', text)` (line 32), with fuel to
keep the scan structural; `urlSub` instantiates the fuel with the length. -/
def urlSubFuel : Nat → List Char → List Char
  | 0, s => s
  | _, [] => []
  | fuel + 1, c :: rest =>
    match matchUrlAt (c :: rest) with
    | some rest2 => "[URL]".toList ++ urlSubFuel fuel rest2
    | none => c :: urlSubFuel fuel rest

def urlSub (s : List Char) : List Char :=
  urlSubFuel s.length s

/-- Within one maximal non-whitespace run, `\S+@\S+` matches (and then the
greedy match covers the whole run) exactly when the run carries an `'@'`
that is neither its first nor its last character. -/
def runHasEmail (run : List Char) : Bool :=
  '@' ∈ (run.drop 1).dropLast

/-- `re.sub(r'\S+@\S+', '[EMAIL]', text)` (line 35). -/
def emailSubFuel : Nat → List Char → List Char
  | 0, s => s
  | _, [] => []
  | fuel + 1, c :: rest =>
    if isPySpace c then c :: emailSubFuel fuel rest
    else
      (if runHasEmail (c :: rest.takeWhile (fun d => !isPySpace d))
        then "[EMAIL]".toList
        else c :: rest.takeWhile (fun d => !isPySpace d)) ++
      emailSubFuel fuel (rest.dropWhile (fun d => !isPySpace d))

def emailSub (s : List Char) : List Char :=
  emailSubFuel s.length s

/-- `re.sub(r'[^\w\s]', ' ', text)` (line 38). -/
def punctSub (s : List Char) : List Char :=
  s.map (fun c => if isWordChar c || isPySpace c then c else ' ')

/-- `re.sub(r'\d+', '[NUM]', text)` (line 41). -/
def numSubFuel : Nat → List Char → List Char
  | 0, s => s
  | _, [] => []
  | fuel + 1, c :: rest =>
    if c.isDigit then "[NUM]".toList ++ numSubFuel fuel (rest.dropWhile Char.isDigit)
    else c :: numSubFuel fuel rest

def numSub (s : List Char) : List Char :=
  numSubFuel s.length s

/-- `preprocess_text` (`moderation/utils.py` lines 12-46): lower-case,
collapse whitespace, URL placeholder, email placeholder, punctuation to
spaces, digit runs to placeholder, collapse again; falsy input (empty
string) maps to the empty string. -/
def preprocess_text (text : List Char) : List Char :=
  if text = [] then []
  else collapseWS (numSub (punctSub (emailSub (urlSub (collapseWS (pyLower text))))))

/-- `preprocess_text` on an optional (possibly `None`) argument: `None` is
falsy and also maps to the empty string. -/
def preprocess_text_opt : Option (List Char) → List Char
  | none => []
  | some t => preprocess_text t

/-! ## Classification engine (`moderation/classifier.py`, `classify_text`,
lines 150-195)

The per-category `(vectorizer, model)` pair is abstracted into three states,
covering all control paths of the source loop:
* `absent` — the category is missing from the `vectorizers`/`models` dicts
  (or the stored object has no `transform` attribute), so the source's
  `else` branch draws a random score;
* `broken` — `transform`/`predict_proba` raises (e.g. an unfitted
  vectorizer), so the source's `except` branch draws a random score;
* `fitted f` — the fitted pipeline; `f text` is the positive-class
  probability `predict_proba(X)[0][1]` returned by sklearn.
-/

inductive CatModel where
  | absent
  | broken
  | fitted (predict : List Char → ℚ)

/-- The engine state relevant to `classify_text`: the category list and the
(parallel) `vectorizers`/`models` dictionaries, as an association list.
`pairs = []` models `not self.models or not self.vectorizers`. -/
structure ClassifierState where
  categories : List String
  pairs : List (String × CatModel)

/-- `random.uniform 0.1 0.9 = 0.1 + (0.9 - 0.1) * random()` where
`random()` draws from `[0, 1)`. -/
def uniform01_09 (r : ℚ) : ℚ :=
  1/10 + (9/10 - 1/10) * r

/-- `_generate_random_classification` (lines 193-195): one uniform draw per
category, in order. -/
def generate_random_classification (cats : List String) (rng : Nat → ℚ)
    (k : Nat) : List (String × ℚ) :=
  match cats with
  | [] => []
  | c :: cs => (c, uniform01_09 (rng k)) :: generate_random_classification cs rng (k + 1)

/-- The per-category loop of `classify_text` (lines 166-186).  `k` counts the
random draws consumed so far (only fallback categories consume a draw). -/
def classifyLoop (pairs : List (String × CatModel)) (rng : Nat → ℚ)
    (text : List Char) (k : Nat) : List String → List (String × ℚ)
  | [] => []
  | c :: cs =>
    match pairs.lookup c with
    | some (CatModel.fitted f) => (c, f text) :: classifyLoop pairs rng text k cs
    | some CatModel.broken => (c, uniform01_09 (rng k)) :: classifyLoop pairs rng text (k + 1) cs
    | some CatModel.absent => (c, uniform01_09 (rng k)) :: classifyLoop pairs rng text (k + 1) cs
    | none => (c, uniform01_09 (rng k)) :: classifyLoop pairs rng text (k + 1) cs

/-- `classify_text` (lines 150-187): demo mode when no model exists at all,
otherwise the per-category loop with per-category fallbacks.  Total — it
never raises to the caller. -/
def classify_text (st : ClassifierState) (rng : Nat → ℚ) (text : List Char) :
    List (String × ℚ) :=
  if st.pairs.isEmpty then generate_random_classification st.categories rng 0
  else classifyLoop st.pairs rng text 0 st.categories

/-! ## Data model (`models.py`) -/

/-- A `DateTime` value: calendar day plus a tick within the day.  The SQL
range check `between(start_of_day, end_of_day)` is day equality. -/
structure Timestamp where
  day : Nat
  tick : Nat
  deriving DecidableEq, Repr

/-- Structured explanation payload (list of term/coefficient pairs), as
produced by `get_explainability`. -/
abbrev Explanation := List (String × ℚ)

/-- Content metadata: its `str(...)` rendering plus the optional
`'filename'` entry the processor reads. -/
structure Metadata where
  repr : String
  filename : Option String
  deriving DecidableEq

/-- `Content` row. -/
structure ContentRow where
  id : Nat
  user_id : Option Nat
  content_type : String
  content_text : List Char
  original_content : List Char
  content_metadata : Option Metadata
  created_at : Timestamp
  deriving DecidableEq

/-- `ModerationStatus` row. -/
structure StatusRow where
  content_id : Nat
  status : String
  moderation_score : ℚ
  is_automated : Bool
  last_updated : Timestamp
  processing_time : Option ℚ
  deriving DecidableEq

/-- `ContentFlag` row. -/
structure FlagRow where
  content_id : Nat
  flag_type : String
  flag_score : ℚ
  flag_details : Explanation
  created_at : Timestamp
  deriving DecidableEq

/-- `ModerationAction` row. -/
structure ActionRow where
  content_id : Nat
  user_id : Option Nat
  action_type : String
  action_notes : Option String
  previous_status : Option String
  created_at : Timestamp
  deriving DecidableEq

/-- `ModerationMetric.metric_value`: a JSON aggregate — a count, a
string-keyed histogram, or a bare number. -/
inductive MetricValue where
  | processedVal (count : Nat)
  | distVal (counts : List (String × Nat))
  | numVal (q : ℚ)
  deriving DecidableEq

/-- `ModerationMetric` row. -/
structure MetricRow where
  metric_date : Nat
  metric_type : String
  metric_value : MetricValue
  created_at : Timestamp
  deriving DecidableEq

/-- The transactional record store. -/
structure DB where
  contents : List ContentRow
  statuses : List StatusRow
  flags : List FlagRow
  actions : List ActionRow
  metrics : List MetricRow
  nextId : Nat
  deriving DecidableEq

/-! ## Content processor (`moderation/processor.py`) -/

/-- The classifier as seen by the processor (`self.classifier`).
`classify_text` may be any behaviour including raising (`Except.error`),
so that "any exception during processing" is quantified over. -/
structure ClassifierIntf where
  classify_text : List Char → Except String (List (String × ℚ))
  get_explainability : List Char → String → Explanation

/-- Environment of one `process_content` call: outcomes of the fallible
store operations, the wall clock, and Python's `hash` on strings (used only
by the media stub). -/
structure ProcEnv where
  flushOk : Bool
  commitOk : Bool
  hashv : String → Int
  start_time : ℚ
  end_time : ℚ
  now : Timestamp

/-- `max(0.05, min(0.95, float(hash(s) % 100) / 100))` for the media stub
(`_generate_media_classification`, lines 233-270). -/
def media_hash_score (hashv : String → Int) (s : String) : ℚ :=
  max (1/20) (min (19/20) (((hashv s % 100 : Int) : ℚ) / 100))

/-- `str(metadata)` for the hash seed. -/
def md_str : Option Metadata → String
  | none => "None"
  | some m => m.repr

/-- `metadata['filename']` when `metadata` is truthy and has the key. -/
def md_filename (md : Option Metadata) : Option String :=
  md.bind (fun m => m.filename)

/-- `_generate_media_classification` (lines 233-270). -/
def generate_media_classification (hashv : String → Int) (media_type : String)
    (md : Option Metadata) : List (String × ℚ) :=
  let base := [("violence", media_hash_score hashv (md_str md)),
               ("adult_content", media_hash_score hashv (md_str md ++ "1"))]
  if media_type = "image" then
    base ++ [("graphic_violence", media_hash_score hashv (md_str md ++ "2")),
             ("sexual_content", media_hash_score hashv (md_str md ++ "3")),
             ("hate_symbols", media_hash_score hashv (md_str md ++ "4"))]
  else if media_type = "video" then
    base ++ [("graphic_violence", media_hash_score hashv (md_str md ++ "5")),
             ("sexual_content", media_hash_score hashv (md_str md ++ "6")),
             ("dangerous_activity", media_hash_score hashv (md_str md ++ "7")),
             ("hate_speech", media_hash_score hashv (md_str md ++ "8"))]
  else base

/-- Lines 44-51: `original_content` — a reference string for oversized
media, the raw text otherwise. -/
def original_content_of (content_type : String) (content_text : List Char)
    (md : Option Metadata) : List Char :=
  if (content_type = "image" ∨ content_type = "video") ∧ content_text.length > 1000 then
    (if content_type = "image" then "[IMAGE content]".toList else "[VIDEO content]".toList) ++
      (match md_filename md with
       | some f => (" - " ++ f).toList
       | none => [])
  else content_text

/-- Lines 53-62: the text handed to the classifier — preprocessed for
`text`, a placeholder description for everything else. -/
def preprocessed_of (content_type : String) (content_text : List Char)
    (md : Option Metadata) : List Char :=
  if content_type = "text" then preprocess_text content_text
  else ("Analyzing " ++ content_type ++ " content").toList ++
    (match md_filename md with
     | some f => (": " ++ f).toList
     | none => [])

/-- Line 68: `content_text[:1000] if len(content_text) > 1000 else
content_text`. -/
def truncate1000 (t : List Char) : List Char :=
  if t.length > 1000 then t.take 1000 else t

/-- Lines 75-89: pick the classification source by content type (text
classifier for `text` and unknown types, hash stub for media). -/
def classification_of (cls : ClassifierIntf) (env : ProcEnv) (content_type : String)
    (preprocessed : List Char) (md : Option Metadata) :
    Except String (List (String × ℚ)) :=
  if content_type = "text" then cls.classify_text preprocessed
  else if content_type = "image" then
    Except.ok (generate_media_classification env.hashv "image" md)
  else if content_type = "video" then
    Except.ok (generate_media_classification env.hashv "video" md)
  else cls.classify_text preprocessed

/-- Lines 91-94: overall score — running maximum over the classification,
starting from 0. -/
def overall_score (classification : List (String × ℚ)) : ℚ :=
  classification.foldl (fun m p => max m p.2) 0

/-- Lines 96-101: initial disposition from the overall score. -/
def initial_status (moderation_score : ℚ) : String :=
  if moderation_score > 8/10 then "rejected"
  else if moderation_score < 3/10 then "approved"
  else "pending"

/-- Lines 114-128: the flag-creation loop — one `ContentFlag` appended per
classification entry with score strictly above 0.3, carrying that
category's explanation. -/
def create_flags (explain : List Char → String → Explanation)
    (preprocessed : List Char) (cid : Nat) (now : Timestamp)
    (classification : List (String × ℚ)) : List FlagRow :=
  classification.foldl
    (fun acc p =>
      if p.2 > 3/10 then
        acc ++ [{ content_id := cid
                  flag_type := p.1
                  flag_score := p.2
                  flag_details := explain preprocessed p.1
                  created_at := now }]
      else acc)
    []

/-- The record returned by a successful `process_content` call. -/
structure ProcResult where
  content : ContentRow
  statusRow : StatusRow
  flags : List FlagRow
  action : ActionRow

/-- The `Content` row built at lines 64-71 (id assigned by the flush). -/
def proc_content_row (env : ProcEnv) (cid : Nat) (content_text : List Char)
    (content_type : String) (user_id : Option Nat) (md : Option Metadata) :
    ContentRow :=
  { id := cid
    user_id := user_id
    content_type := content_type
    content_text := truncate1000 content_text
    original_content := original_content_of content_type content_text md
    content_metadata := md
    created_at := env.now }

/-- The `ModerationStatus` row built at lines 103-111. -/
def proc_status_row (env : ProcEnv) (cid : Nat)
    (classification : List (String × ℚ)) : StatusRow :=
  { content_id := cid
    status := initial_status (overall_score classification)
    moderation_score := overall_score classification
    is_automated := true
    last_updated := env.now
    processing_time := some (env.end_time - env.start_time) }

/-- The initial automated `ModerationAction` built at lines 130-136.
(`action_notes` renders the score with Lean's rational printer where the
source formats it to two decimals; no claim concerns the note text.) -/
def proc_action_row (env : ProcEnv) (cid : Nat)
    (classification : List (String × ℚ)) : ActionRow :=
  { content_id := cid
    user_id := none
    action_type := "automated_" ++ initial_status (overall_score classification)
    action_notes := some ("Automated " ++ initial_status (overall_score classification) ++
      " with score " ++ toString (overall_score classification))
    previous_status := none
    created_at := env.now }

/-- The full record assembled by a successful `process_content` call. -/
def proc_result (cls : ClassifierIntf) (env : ProcEnv) (db : DB)
    (content_text : List Char) (content_type : String)
    (user_id : Option Nat) (md : Option Metadata)
    (classification : List (String × ℚ)) : ProcResult :=
  ⟨proc_content_row env db.nextId content_text content_type user_id md,
   proc_status_row env db.nextId classification,
   create_flags cls.get_explainability
     (preprocessed_of content_type content_text md) db.nextId env.now
     classification,
   proc_action_row env db.nextId classification⟩

/-- `db.session.commit()` of the one processing transaction: all five writes
land together. -/
def proc_commit (db : DB) (r : ProcResult) : DB :=
  { contents := db.contents ++ [r.content]
    statuses := db.statuses ++ [r.statusRow]
    flags := db.flags ++ r.flags
    actions := db.actions ++ [r.action]
    metrics := db.metrics
    nextId := db.nextId + 1 }

/-- `process_content` (`moderation/processor.py` lines 27-153).  The
`try` body builds the five writes; `db.session.commit()` appends them all
at once; any exception (failed flush, classifier error, failed commit)
reaches the `except` handler, which rolls back and returns the failure
sentinel `None` — the store is then returned unchanged. -/
def process_content (cls : ClassifierIntf) (env : ProcEnv) (db : DB)
    (content_text : List Char) (content_type : String)
    (user_id : Option Nat) (md : Option Metadata) : Option ProcResult × DB :=
  if env.flushOk = false then (none, db)
  else
    match classification_of cls env content_type
        (preprocessed_of content_type content_text md) md with
    | Except.error _ => (none, db)
    | Except.ok classification =>
      if env.commitOk = false then (none, db)
      else
        (some (proc_result cls env db content_text content_type user_id md classification),
          proc_commit db (proc_result cls env db content_text content_type user_id md classification))

/-! ## Status update (`moderation/processor.py`, `update_moderation_status`,
lines 180-231) -/

/-- Environment of one `update_moderation_status` call. -/
structure UpdEnv where
  now : Timestamp
  commitOk : Bool

/-- Replace the first status row with the given `content_id` (the ORM
mutates the row returned by `.filter_by(content_id=...).first()` in
place). -/
def setStatusRow : List StatusRow → Nat → StatusRow → List StatusRow
  | [], _, _ => []
  | r :: rs, cid, new => if r.content_id = cid then new :: rs
      else r :: setStatusRow rs cid new

/-- `update_moderation_status` (lines 180-231): `NotFound` (returning the
failure sentinel and mutating nothing) when the content or its status row
is absent; otherwise record the previous disposition, overwrite the
disposition, clear the automated flag, stamp the time, and append one
action — committed together, rolled back together. -/
def update_moderation_status (env : UpdEnv) (db : DB) (content_id : Nat)
    (status : String) (user_id : Option Nat) (notes : Option String) :
    Option StatusRow × DB :=
  match db.contents.find? (fun c => c.id = content_id) with
  | none => (none, db)
  | some _ =>
    match db.statuses.find? (fun s => s.content_id = content_id) with
    | none => (none, db)
    | some current_status =>
      let updated : StatusRow :=
        { current_status with
            status := status
            is_automated := false
            last_updated := env.now }
      let action : ActionRow :=
        { content_id := content_id
          user_id := user_id
          action_type := status
          action_notes := notes
          previous_status := some current_status.status
          created_at := env.now }
      if env.commitOk = false then (none, db)
      else
        (some updated,
          { db with
              statuses := setStatusRow db.statuses content_id updated
              actions := db.actions ++ [action] })

/-- One call of a sequence of `update_moderation_status` invocations. -/
structure UpdCall where
  env : UpdEnv
  status : String
  user_id : Option Nat
  notes : Option String

/-- Apply a sequence of `update_moderation_status` calls to one content id. -/
def run_updates (db : DB) (cid : Nat) : List UpdCall → DB
  | [] => db
  | c :: cs =>
    run_updates (update_moderation_status c.env db cid c.status c.user_id c.notes).2 cid cs

/-- The audit-log rows the specification predicts for a successful call
sequence: one row per call, `action_type` the requested status,
`previous_status` the (non-null) disposition immediately before that call.
This definition follows the specification's words; the theorems compare the
code's behaviour against it. -/
def audit_trail_spec (cid : Nat) (prev : String) : List UpdCall → List ActionRow
  | [] => []
  | c :: cs =>
    { content_id := cid
      user_id := c.user_id
      action_type := c.status
      action_notes := c.notes
      previous_status := some prev
      created_at := c.env.now } :: audit_trail_spec cid c.status cs

/-- The actions recorded for one content id. -/
def actionsFor (db : DB) (cid : Nat) : List ActionRow :=
  db.actions.filter (fun a => a.content_id = cid)

/-- The status row the specification predicts after a successful call
sequence: the last requested disposition, automated flag cleared, and the
last call's update time.  This definition follows the specification's
words. -/
def final_status_spec (st : StatusRow) : List UpdCall → StatusRow
  | [] => st
  | c :: cs => final_status_spec
      { st with status := c.status, is_automated := false, last_updated := c.env.now } cs

/-! ## Metrics aggregation (`moderation/utils.py`,
`generate_daily_metrics`, lines 48-166) -/

/-- Environment of one `generate_daily_metrics` call. -/
structure MetricsEnv where
  today : Nat
  now : Timestamp
  commitOk : Bool

/-- Python dict counting (`flag_counts[k] += 1` / `= 1`): increment in
place, insert new keys at the end. -/
def bumpCount : List (String × Nat) → String → List (String × Nat)
  | [], k => [(k, 1)]
  | (k', n) :: rest, k =>
    if k' = k then (k', n + 1) :: rest else (k', n) :: bumpCount rest k

/-- Histogram of a key list in first-seen order. -/
def countByKey (keys : List String) : List (String × Nat) :=
  keys.foldl bumpCount []

/-- Metric types already recorded for a date. -/
def metricTypesFor (today : Nat) (ms : List MetricRow) : List String :=
  (ms.filter (fun m => m.metric_date = today)).map (fun m => m.metric_type)

/-- `generate_daily_metrics` (lines 48-166): for each of the four metric
types, skip it if a row for today already exists, otherwise compute it over
today's rows; commit all new rows together (rollback returns the store
unchanged). -/
def generate_daily_metrics (env : MetricsEnv) (db : DB) : Bool × DB :=
  let today := env.today
  let existing := metricTypesFor today db.metrics
  let m1 : List MetricRow :=
    if "daily_processed" ∈ existing then []
    else
      [{ metric_date := today
         metric_type := "daily_processed"
         metric_value := MetricValue.processedVal
           ((db.statuses.filter (fun s => s.last_updated.day = today)).length)
         created_at := env.now }]
  let m2 : List MetricRow :=
    if "flag_distribution" ∈ existing then []
    else
      [{ metric_date := today
         metric_type := "flag_distribution"
         metric_value := MetricValue.distVal (countByKey
           ((db.flags.filter (fun f => f.created_at.day = today)).map
             (fun f => f.flag_type)))
         created_at := env.now }]
  let m3 : List MetricRow :=
    if "status_distribution" ∈ existing then []
    else
      [{ metric_date := today
         metric_type := "status_distribution"
         metric_value := MetricValue.distVal (countByKey
           ((db.statuses.filter (fun s => s.last_updated.day = today)).map
             (fun s => s.status)))
         created_at := env.now }]
  let m4 : List MetricRow :=
    if "avg_processing_time" ∈ existing then []
    else
      let todays := db.statuses.filter
        (fun s => s.last_updated.day = today ∧ s.processing_time.isSome)
      let avg : ℚ :=
        if todays.length > 0 then
          (todays.map (fun s => s.processing_time.getD 0)).foldl (· + ·) 0 /
            (todays.length : ℚ)
        else 0
      [{ metric_date := today
         metric_type := "avg_processing_time"
         metric_value := MetricValue.numVal avg
         created_at := env.now }]
  if env.commitOk = false then (false, db)
  else (true, { db with metrics := db.metrics ++ m1 ++ m2 ++ m3 ++ m4 })

/-! ## Training evaluation (`moderation/train_model.py`,
`evaluate_category`, lines 226-264)

`getScore text` stands for `classifier.classify_text(text).get(category, 0)`
and `threshold` for `classifier.get_threshold(category)`.
-/

/-- The prediction list (lines 230-235): threshold at `>=`. -/
def eval_predictions (getScore : List Char → ℚ) (threshold : ℚ)
    (texts : List (List Char)) : List Nat :=
  texts.map (fun t => if getScore t ≥ threshold then 1 else 0)

/-- True positives over `zip(predictions, labels)` (line 242). -/
def eval_tp (predictions labels : List Nat) : Nat :=
  ((predictions.zip labels).filter (fun p => p.1 = 1 ∧ p.2 = 1)).length

/-- False positives (line 243). -/
def eval_fp (predictions labels : List Nat) : Nat :=
  ((predictions.zip labels).filter (fun p => p.1 = 1 ∧ p.2 = 0)).length

/-- False negatives (line 244). -/
def eval_fn (predictions labels : List Nat) : Nat :=
  ((predictions.zip labels).filter (fun p => p.1 = 0 ∧ p.2 = 1)).length

/-- The four evaluation metrics. -/
structure EvalMetrics where
  accuracy : ℚ
  precision : ℚ
  recall_score : ℚ
  f1_score : ℚ
  deriving DecidableEq

/-- `evaluate_category` (lines 226-264): confusion counts with every ratio
guarded — precision, recall and F1 are literal zeros whenever their
denominator is zero, so no division error can occur. -/
def evaluate_category (getScore : List Char → ℚ) (threshold : ℚ)
    (texts : List (List Char)) (labels : List Nat) : EvalMetrics :=
  let predictions := eval_predictions getScore threshold texts
  let correct := ((predictions.zip labels).filter (fun p => p.1 = p.2)).length
  let accuracy : ℚ := if texts.length > 0 then (correct : ℚ) / (texts.length : ℚ) else 0
  let tp := eval_tp predictions labels
  let fp := eval_fp predictions labels
  let fn := eval_fn predictions labels
  let precision : ℚ := if tp + fp > 0 then (tp : ℚ) / ((tp : ℚ) + (fp : ℚ)) else 0
  let recall_score : ℚ := if tp + fn > 0 then (tp : ℚ) / ((tp : ℚ) + (fn : ℚ)) else 0
  let f1 : ℚ := if precision + recall_score > 0 then
    2 * precision * recall_score / (precision + recall_score) else 0
  ⟨accuracy, precision, recall_score, f1⟩

/-! ## Concrete instances used by the witnesses -/

/-- Character class of the amended idempotence statement: ASCII letters and
whitespace, as a concrete list so that per-character facts are decidable. -/
def plainChars : List Char :=
  "abcdefghijklmnopqrstuvwxyzABCDEFGHIJKLMNOPQRSTUVWXYZ \t\n\x0b\x0c\r".toList

def plainChar (c : Char) : Bool :=
  c ∈ plainChars

def ts0 : Timestamp := ⟨0, 0⟩

def env0 : ProcEnv := ⟨true, true, fun _ => 0, 0, 0, ts0⟩

/-- A classifier returning fixed scores 0.5 / 0.29 / 0.31 (the spec's
boundary probes 0.29 and 0.31 among them). -/
def cls0 : ClassifierIntf :=
  ⟨fun _ => Except.ok
      [("profanity", 1/2), ("violence", 29/100), ("hate_speech", 31/100)],
    fun _ _ => []⟩

/-- A classifier whose overall score is exactly the 0.8 boundary. -/
def cls08 : ClassifierIntf :=
  ⟨fun _ => Except.ok [("violence", 8/10)], fun _ _ => []⟩

def db0 : DB := ⟨[], [], [], [], [], 1⟩

/-- A store holding one content item (id 1) with a `pending` status. -/
def db1 : DB :=
  ⟨[⟨1, none, "text", "x".toList, "x".toList, none, ts0⟩],
   [⟨1, "pending", 1/2, true, ts0, some 1⟩], [], [], [], 2⟩

def uenv0 : UpdEnv := ⟨⟨1, 5⟩, true⟩

/-- Two successive human overrides. -/
def calls2 : List UpdCall :=
  [⟨uenv0, "approved", some 9, none⟩, ⟨uenv0, "rejected", some 9, none⟩]

def menv0 : MetricsEnv := ⟨0, ts0, true⟩

/-- A store with statuses and a flag spread over two days. -/
def dbM : DB :=
  ⟨[], [⟨1, "approved", 1/2, true, ts0, some 2⟩,
        ⟨2, "pending", 1/4, true, ⟨1, 0⟩, none⟩],
   [⟨1, "violence", 1/2, [], ts0⟩], [], [], 3⟩

/-- Engine with no model at all (`pairs = []`): demo/bootstrap mode. -/
def stNoModel : ClassifierState := ⟨["profanity"], []⟩

/-- Engine with one fitted category. -/
def stFitted : ClassifierState :=
  ⟨["violence"], [("violence", CatModel.fitted (fun _ => 1/2))]⟩

/-- The random stream that always draws 0 (an admissible value of
`random.random()`). -/
def rngZero : Nat → ℚ := fun _ => 0

def rngHalf : Nat → ℚ := fun _ => 1/2

def txtHi : List Char := "hi".toList

/-- The classification `cls08` returns. -/
def cl08 : List (String × ℚ) := [("violence", 8/10)]

/-- The classification `cls0` returns. -/
def cl0 : List (String × ℚ) :=
  [("profanity", 1/2), ("violence", 29/100), ("hate_speech", 31/100)]

/-! # Theorems -/

/-! ## List helpers -/

theorem dropWhile_length_le (p : Char → Bool) (l : List Char) :
    (l.dropWhile p).length ≤ l.length :=
  (List.dropWhile_sublist p).length_le

theorem takeWhile_all (p : Char → Bool) :
    ∀ (t : List Char), (∀ c ∈ t, p c = true) → List.takeWhile p t = t := by
  intro t
  induction t with
  | nil => intro _; rfl
  | cons c r ih =>
    intro h
    simp [List.takeWhile_cons, h c (by simp),
      ih (fun d hd => h d (by simp [hd]))]

theorem dropWhile_all (p : Char → Bool) :
    ∀ (t : List Char), (∀ c ∈ t, p c = true) → List.dropWhile p t = [] := by
  intro t
  induction t with
  | nil => intro _; rfl
  | cons c r ih =>
    intro h
    simp [List.dropWhile_cons, h c (by simp),
      ih (fun d hd => h d (by simp [hd]))]

theorem takeWhile_all_append (p : Char → Bool) :
    ∀ (t : List Char) (d : Char) (r : List Char),
    (∀ c ∈ t, p c = true) → p d = false →
    List.takeWhile p (t ++ d :: r) = t := by
  intro t
  induction t with
  | nil => intro d r _ hd; simp [List.takeWhile_cons, hd]
  | cons c t2 ih =>
    intro d r h hd
    simp only [List.cons_append, List.takeWhile_cons, h c (by simp)]
    simp [ih d r (fun e he => h e (by simp [he])) hd]

theorem dropWhile_all_append (p : Char → Bool) :
    ∀ (t : List Char) (d : Char) (r : List Char),
    (∀ c ∈ t, p c = true) → p d = false →
    List.dropWhile p (t ++ d :: r) = d :: r := by
  intro t
  induction t with
  | nil => intro d r _ hd; simp [List.dropWhile_cons, hd]
  | cons c t2 ih =>
    intro d r h hd
    simp only [List.cons_append, List.dropWhile_cons, h c (by simp)]
    simp [ih d r (fun e he => h e (by simp [he])) hd]

/-! ## Splitting and collapsing whitespace -/

theorem pySplitFuel_congr :
    ∀ (f1 f2 : Nat) (s : List Char), s.length ≤ f1 → s.length ≤ f2 →
    pySplitFuel f1 s = pySplitFuel f2 s := by
  intro f1
  induction f1 with
  | zero =>
    intro f2 s h1 _
    have hs : s = [] := List.eq_nil_of_length_eq_zero (Nat.le_zero.mp h1)
    subst hs
    cases f2 <;> rfl
  | succ f ih =>
    intro f2 s h1 h2
    cases s with
    | nil => cases f2 <;> rfl
    | cons c rest =>
      cases f2 with
      | zero => simp at h2
      | succ f2p =>
        simp only [pySplitFuel]
        by_cases hc : isPySpace c = true
        · simp only [hc, if_true]
          exact ih f2p rest (by simpa using h1) (by simpa using h2)
        · simp only [Bool.not_eq_true] at hc
          simp only [hc, Bool.false_eq_true, if_false]
          have hd : (rest.dropWhile (fun d => !isPySpace d)).length ≤ rest.length :=
            dropWhile_length_le _ rest
          have h1r : rest.length ≤ f := by simpa using h1
          have h2r : rest.length ≤ f2p := by simpa using h2
          rw [ih f2p _ (le_trans hd h1r) (le_trans hd h2r)]

theorem pySplitFuel_eq_pySplit (fuel : Nat) (s : List Char)
    (h : s.length ≤ fuel) : pySplitFuel fuel s = pySplit s :=
  pySplitFuel_congr fuel s.length s h le_rfl

theorem pySplit_token (t : List Char) (hne : t ≠ [])
    (hns : ∀ c ∈ t, isPySpace c = false) : pySplit t = [t] := by
  obtain ⟨c, r, rfl⟩ := List.exists_cons_of_ne_nil hne
  show pySplitFuel (r.length + 1) (c :: r) = [c :: r]
  simp only [pySplitFuel, hns c (by simp), Bool.false_eq_true, if_false]
  rw [takeWhile_all _ r (fun d hd => by simp [hns d (by simp [hd])]),
    dropWhile_all _ r (fun d hd => by simp [hns d (by simp [hd])])]
  cases r <;> rfl

theorem pySplit_append_space (t : List Char) (r : List Char) (hne : t ≠ [])
    (hns : ∀ c ∈ t, isPySpace c = false) :
    pySplit (t ++ ' ' :: r) = t :: pySplit r := by
  obtain ⟨c, t2, rfl⟩ := List.exists_cons_of_ne_nil hne
  show pySplitFuel ((c :: t2 ++ ' ' :: r).length) (c :: (t2 ++ ' ' :: r)) = _
  have hlen : (c :: t2 ++ ' ' :: r).length = (t2 ++ ' ' :: r).length + 1 := by
    simp
  rw [hlen]
  simp only [pySplitFuel, hns c (by simp), Bool.false_eq_true, if_false]
  rw [takeWhile_all_append _ t2 ' ' r
      (fun d hd => by simp [hns d (by simp [hd])]) (by decide),
    dropWhile_all_append _ t2 ' ' r
      (fun d hd => by simp [hns d (by simp [hd])]) (by decide)]
  have h1 : (t2 ++ ' ' :: r).length = t2.length + r.length + 1 := by
    simp; omega
  rw [h1]
  have h2 : pySplitFuel (t2.length + r.length + 1) (' ' :: r) =
      pySplitFuel (t2.length + r.length) r := by
    simp [pySplitFuel, isPySpace]
  rw [h2, pySplitFuel_eq_pySplit _ r (by omega)]

theorem pySplitFuel_tokens_wf :
    ∀ (fuel : Nat) (s t : List Char), t ∈ pySplitFuel fuel s →
    t ≠ [] ∧ ∀ c ∈ t, isPySpace c = false := by
  intro fuel
  induction fuel with
  | zero => intro s t h; simp [pySplitFuel] at h
  | succ f ih =>
    intro s t h
    cases s with
    | nil => simp [pySplitFuel] at h
    | cons c rest =>
      by_cases hc : isPySpace c = true
      · rw [show pySplitFuel (f + 1) (c :: rest) = pySplitFuel f rest by
          simp [pySplitFuel, hc]] at h
        exact ih rest t h
      · simp only [Bool.not_eq_true] at hc
        rw [show pySplitFuel (f + 1) (c :: rest) =
            (c :: rest.takeWhile (fun d => !isPySpace d)) ::
              pySplitFuel f (rest.dropWhile (fun d => !isPySpace d)) by
          simp [pySplitFuel, hc]] at h
        rcases List.mem_cons.mp h with rfl | h2
        · refine ⟨by simp, ?_⟩
          intro d hd
          rcases List.mem_cons.mp hd with rfl | hd2
          · exact hc
          · have := List.mem_takeWhile_imp hd2
            simpa using this
        · exact ih _ t h2

theorem pySplitFuel_tokens_subset :
    ∀ (fuel : Nat) (s t : List Char), t ∈ pySplitFuel fuel s →
    ∀ c ∈ t, c ∈ s := by
  intro fuel
  induction fuel with
  | zero => intro s t h; simp [pySplitFuel] at h
  | succ f ih =>
    intro s t h
    cases s with
    | nil => simp [pySplitFuel] at h
    | cons c rest =>
      by_cases hc : isPySpace c = true
      · rw [show pySplitFuel (f + 1) (c :: rest) = pySplitFuel f rest by
          simp [pySplitFuel, hc]] at h
        intro d hd
        exact List.mem_cons_of_mem c (ih rest t h d hd)
      · simp only [Bool.not_eq_true] at hc
        rw [show pySplitFuel (f + 1) (c :: rest) =
            (c :: rest.takeWhile (fun d => !isPySpace d)) ::
              pySplitFuel f (rest.dropWhile (fun d => !isPySpace d)) by
          simp [pySplitFuel, hc]] at h
        rcases List.mem_cons.mp h with rfl | h2
        · intro d hd
          rcases List.mem_cons.mp hd with rfl | hd2
          · simp
          · exact List.mem_cons_of_mem c ((List.takeWhile_sublist _).subset hd2)
        · intro d hd
          exact List.mem_cons_of_mem c
            ((List.dropWhile_sublist _).subset (ih _ t h2 d hd))

theorem joinSp_chars :
    ∀ (ts : List (List Char)) (c : Char), c ∈ joinSp ts →
    (∃ t ∈ ts, c ∈ t) ∨ c = ' ' := by
  intro ts
  induction ts with
  | nil => intro c h; simp [joinSp] at h
  | cons t ts ih =>
    cases ts with
    | nil =>
      intro c h
      exact Or.inl ⟨t, by simp, by simpa [joinSp] using h⟩
    | cons t2 ts2 =>
      intro c h
      have hj : joinSp (t :: t2 :: ts2) = t ++ ' ' :: joinSp (t2 :: ts2) := rfl
      rw [hj] at h
      rcases List.mem_append.mp h with h1 | h2
      · exact Or.inl ⟨t, by simp, h1⟩
      · rcases List.mem_cons.mp h2 with rfl | h3
        · exact Or.inr rfl
        · rcases ih c h3 with ⟨u, hu, hc⟩ | hsp
          · exact Or.inl ⟨u, by simp [hu], hc⟩
          · exact Or.inr hsp

theorem pySplit_joinSp :
    ∀ (ts : List (List Char)),
    (∀ t ∈ ts, t ≠ [] ∧ ∀ c ∈ t, isPySpace c = false) →
    pySplit (joinSp ts) = ts := by
  intro ts
  induction ts with
  | nil => intro _; rfl
  | cons t ts ih =>
    intro h
    cases ts with
    | nil =>
      have := pySplit_token t (h t (by simp)).1 (h t (by simp)).2
      simpa [joinSp] using this
    | cons t2 ts2 =>
      have hj : joinSp (t :: t2 :: ts2) = t ++ ' ' :: joinSp (t2 :: ts2) := rfl
      rw [hj, pySplit_append_space t _ (h t (by simp)).1 (h t (by simp)).2,
        ih (fun u hu => h u (by simp [hu]))]

theorem collapseWS_idem (s : List Char) :
    collapseWS (collapseWS s) = collapseWS s := by
  show joinSp (pySplit (joinSp (pySplit s))) = joinSp (pySplit s)
  rw [pySplit_joinSp (pySplit s) (fun t ht => pySplitFuel_tokens_wf _ _ t ht)]

theorem collapseWS_chars (s : List Char) (c : Char) (h : c ∈ collapseWS s) :
    c ∈ s ∨ c = ' ' := by
  rcases joinSp_chars _ c h with ⟨t, ht, hc⟩ | hsp
  · exact Or.inl (pySplitFuel_tokens_subset _ _ t ht c hc)
  · exact Or.inr hsp

/-! ## The substitution passes are the identity on letters-and-whitespace
text -/

theorem plainChar_mem {c : Char} (h : plainChar c = true) : c ∈ plainChars := by
  simpa [plainChar] using h

theorem plainChars_word : ∀ c ∈ plainChars, (isWordChar c || isPySpace c) = true := by
  decide

theorem plainChars_not_digit : ∀ c ∈ plainChars, c.isDigit = false := by
  decide

theorem plainChars_lower_plain :
    ∀ c ∈ plainChars, plainChar (pyLowerChar c) = true := by
  decide

theorem plainChars_lower_idem :
    ∀ c ∈ plainChars, pyLowerChar (pyLowerChar c) = pyLowerChar c := by
  decide

theorem matchUrlAt_none_of_plain (s : List Char)
    (h : ∀ c ∈ s, plainChar c = true) : matchUrlAt s = none := by
  have h1 : ¬ s.take 8 = "https://".toList := by
    intro he
    have hc : ':' ∈ s.take 8 := by rw [he]; decide
    have := h ':' (List.take_subset 8 s hc)
    exact absurd this (by decide)
  have h2 : ¬ s.take 7 = "http://".toList := by
    intro he
    have hc : ':' ∈ s.take 7 := by rw [he]; decide
    have := h ':' (List.take_subset 7 s hc)
    exact absurd this (by decide)
  have h3 : ¬ s.take 4 = "www.".toList := by
    intro he
    have hc : '.' ∈ s.take 4 := by rw [he]; decide
    have := h '.' (List.take_subset 4 s hc)
    exact absurd this (by decide)
  unfold matchUrlAt
  rw [if_neg h1, if_neg h2, if_neg h3]

theorem urlSubFuel_of_plain :
    ∀ (fuel : Nat) (s : List Char), (∀ c ∈ s, plainChar c = true) →
    urlSubFuel fuel s = s := by
  intro fuel
  induction fuel with
  | zero => intro s _; cases s <;> rfl
  | succ f ih =>
    intro s h
    cases s with
    | nil => rfl
    | cons c rest =>
      simp only [urlSubFuel, matchUrlAt_none_of_plain _ h]
      rw [ih rest (fun d hd => h d (by simp [hd]))]

theorem emailSubFuel_of_plain :
    ∀ (fuel : Nat) (s : List Char), (∀ c ∈ s, plainChar c = true) →
    emailSubFuel fuel s = s := by
  intro fuel
  induction fuel with
  | zero => intro s _; cases s <;> rfl
  | succ f ih =>
    intro s h
    cases s with
    | nil => rfl
    | cons c rest =>
      by_cases hc : isPySpace c = true
      · simp only [emailSubFuel, hc, if_true]
        rw [ih rest (fun d hd => h d (by simp [hd]))]
      · simp only [Bool.not_eq_true] at hc
        have hre : runHasEmail (c :: rest.takeWhile (fun d => !isPySpace d)) = false := by
          simp only [runHasEmail, decide_eq_false_iff_not]
          intro hmem
          have h1 : '@' ∈ (c :: rest.takeWhile (fun d => !isPySpace d)).drop 1 :=
            (List.dropLast_sublist _).subset hmem
          have h2 : '@' ∈ c :: rest.takeWhile (fun d => !isPySpace d) :=
            List.drop_subset 1 _ h1
          have h3 : '@' ∈ c :: rest := by
            rcases List.mem_cons.mp h2 with he | ht
            · exact List.mem_cons.mpr (Or.inl he)
            · exact List.mem_cons_of_mem c ((List.takeWhile_sublist _).subset ht)
          exact absurd (h '@' h3) (by decide)
        simp only [emailSubFuel, hc, Bool.false_eq_true, if_false, hre]
        rw [ih (rest.dropWhile (fun d => !isPySpace d))
          (fun d hd => h d (List.mem_cons_of_mem c
            ((List.dropWhile_sublist _).subset hd)))]
        simp [List.takeWhile_append_dropWhile]

theorem punctSub_of_plain (s : List Char)
    (h : ∀ c ∈ s, plainChar c = true) : punctSub s = s := by
  induction s with
  | nil => rfl
  | cons c rest ih =>
    have hw : (isWordChar c || isPySpace c) = true :=
      plainChars_word c (plainChar_mem (h c (by simp)))
    simp only [punctSub, List.map_cons, hw, if_true]
    have := ih (fun d hd => h d (by simp [hd]))
    simpa [punctSub] using this

theorem numSubFuel_of_plain :
    ∀ (fuel : Nat) (s : List Char), (∀ c ∈ s, plainChar c = true) →
    numSubFuel fuel s = s := by
  intro fuel
  induction fuel with
  | zero => intro s _; cases s <;> rfl
  | succ f ih =>
    intro s h
    cases s with
    | nil => rfl
    | cons c rest =>
      have hd : c.isDigit = false :=
        plainChars_not_digit c (plainChar_mem (h c (by simp)))
      simp only [numSubFuel, hd, Bool.false_eq_true, if_false]
      rw [ih rest (fun d hdm => h d (by simp [hdm]))]

/-! ## Idempotence of `preprocess_text` on letters-and-whitespace text -/

theorem pyLower_plain (s : List Char) (h : ∀ c ∈ s, plainChar c = true) :
    ∀ c ∈ pyLower s, plainChar c = true := by
  intro c hc
  rcases List.mem_map.mp hc with ⟨d, hd, rfl⟩
  exact plainChars_lower_plain d (plainChar_mem (h d hd))

theorem pyLower_fix (s : List Char) (h : ∀ c ∈ s, pyLowerChar c = c) :
    pyLower s = s := by
  induction s with
  | nil => rfl
  | cons c rest ih =>
    simp only [pyLower, List.map_cons, h c (by simp)]
    have := ih (fun d hd => h d (by simp [hd]))
    simpa [pyLower] using this

/-- On plain input the four regex passes fire nowhere, so `preprocess_text`
is lower-casing followed by whitespace collapsing. -/
theorem preprocess_text_of_plain (x : List Char)
    (h : ∀ c ∈ x, plainChar c = true) :
    preprocess_text x = collapseWS (pyLower x) := by
  by_cases hx : x = []
  · subst hx; rfl
  · have hy : ∀ c ∈ collapseWS (pyLower x), plainChar c = true := by
      intro c hc
      rcases collapseWS_chars _ c hc with hm | rfl
      · exact pyLower_plain x h c hm
      · decide
    show (if x = [] then [] else _) = _
    rw [if_neg hx]
    rw [show urlSub (collapseWS (pyLower x)) = collapseWS (pyLower x) from
        urlSubFuel_of_plain _ _ hy,
      show emailSub (collapseWS (pyLower x)) = collapseWS (pyLower x) from
        emailSubFuel_of_plain _ _ hy,
      punctSub_of_plain _ hy,
      show numSub (collapseWS (pyLower x)) = collapseWS (pyLower x) from
        numSubFuel_of_plain _ _ hy,
      collapseWS_idem]

theorem preprocess_text_plain_chars (x : List Char)
    (h : ∀ c ∈ x, plainChar c = true) :
    ∀ c ∈ preprocess_text x, plainChar c = true ∧ pyLowerChar c = c := by
  intro c hc
  rw [preprocess_text_of_plain x h] at hc
  rcases collapseWS_chars _ c hc with hm | rfl
  · rcases List.mem_map.mp hm with ⟨d, hd, rfl⟩
    exact ⟨plainChars_lower_plain d (plainChar_mem (h d hd)),
      plainChars_lower_idem d (plainChar_mem (h d hd))⟩
  · exact ⟨by decide, by decide⟩

/-- Claim C7, amended: `preprocess_text` is deterministic, pure and total,
maps empty and `None` input to the empty string, and is idempotent on every
text made of (ASCII) letters and whitespace.  (Unrestricted idempotence is
refuted by `claim_C7_counterexample`: a second pass rewrites the
placeholder tokens the first pass introduced.) -/
theorem claim_C7 (x : List Char) (h : ∀ c ∈ x, plainChar c = true) :
    preprocess_text (preprocess_text x) = preprocess_text x ∧
    preprocess_text [] = [] ∧
    preprocess_text_opt none = [] ∧
    preprocess_text_opt (some x) = preprocess_text x := by
  refine ⟨?_, rfl, rfl, rfl⟩
  have hy := preprocess_text_plain_chars x h
  rw [preprocess_text_of_plain (preprocess_text x) (fun c hc => (hy c hc).1),
    pyLower_fix _ (fun c hc => (hy c hc).2),
    preprocess_text_of_plain x h, collapseWS_idem]

/-- Witness for C7: the amended idempotence at the concrete input
`"Hello World"`. -/
theorem claim_C7_witness :
    preprocess_text (preprocess_text "Hello World".toList) =
      preprocess_text "Hello World".toList :=
  (claim_C7 "Hello World".toList (by decide)).1

/-- Counterexample refuting C7 as stated: `preprocess_text` is not
idempotent on all text.  `"123"` normalises to `"[NUM]"`, but normalising
again lower-cases the placeholder and strips its brackets, giving
`"num"`. -/
theorem claim_C7_counterexample :
    preprocess_text "123".toList = "[NUM]".toList ∧
    preprocess_text (preprocess_text "123".toList) = "num".toList ∧
    preprocess_text (preprocess_text "123".toList) ≠ preprocess_text "123".toList :=
  ⟨by decide, by decide, by decide⟩

/-! ## Content processor: transaction shape -/

theorem create_flags_foldl (ex : List Char → String → Explanation)
    (pt : List Char) (cid : Nat) (now : Timestamp) :
    ∀ (cl : List (String × ℚ)) (acc : List FlagRow),
    cl.foldl
      (fun acc p =>
        if p.2 > 3/10 then
          acc ++ [{ content_id := cid, flag_type := p.1, flag_score := p.2,
                    flag_details := ex pt p.1, created_at := now }]
        else acc) acc =
      acc ++ (cl.filter (fun p => p.2 > 3/10)).map
        (fun p => { content_id := cid, flag_type := p.1, flag_score := p.2,
                    flag_details := ex pt p.1, created_at := now }) := by
  intro cl
  induction cl with
  | nil => intro acc; simp
  | cons p tl ih =>
    intro acc
    rw [List.foldl_cons, List.filter_cons]
    by_cases hp : p.2 > 3/10
    · rw [if_pos hp, ih]
      simp [hp]
    · rw [if_neg hp, ih]
      simp [hp]

theorem create_flags_eq (ex : List Char → String → Explanation)
    (pt : List Char) (cid : Nat) (now : Timestamp) (cl : List (String × ℚ)) :
    create_flags ex pt cid now cl =
      (cl.filter (fun p => p.2 > 3/10)).map
        (fun p => { content_id := cid, flag_type := p.1, flag_score := p.2,
                    flag_details := ex pt p.1, created_at := now }) := by
  unfold create_flags
  simpa using create_flags_foldl ex pt cid now cl []

theorem create_flags_content_id (ex : List Char → String → Explanation)
    (pt : List Char) (cid : Nat) (now : Timestamp) (cl : List (String × ℚ)) :
    ∀ f ∈ create_flags ex pt cid now cl, f.content_id = cid := by
  rw [create_flags_eq]
  intro f hf
  rcases List.mem_map.mp hf with ⟨p, _, rfl⟩
  rfl

theorem create_flags_score (ex : List Char → String → Explanation)
    (pt : List Char) (cid : Nat) (now : Timestamp) (cl : List (String × ℚ)) :
    ∀ f ∈ create_flags ex pt cid now cl, f.flag_score > 3/10 := by
  rw [create_flags_eq]
  intro f hf
  rcases List.mem_map.mp hf with ⟨p, hp, rfl⟩
  simpa using List.of_mem_filter hp

theorem process_content_fail (cls : ClassifierIntf) (env : ProcEnv) (db : DB)
    (text : List Char) (ct : String) (uid : Option Nat) (md : Option Metadata)
    (db' : DB)
    (h : process_content cls env db text ct uid md = (none, db')) : db' = db := by
  unfold process_content at h
  split at h
  · exact (congrArg Prod.snd h).symm
  · split at h
    · exact (congrArg Prod.snd h).symm
    · split at h
      · exact (congrArg Prod.snd h).symm
      · exact absurd (congrArg Prod.fst h) (by simp)

theorem process_content_ok (cls : ClassifierIntf) (env : ProcEnv) (db : DB)
    (text : List Char) (ct : String) (uid : Option Nat) (md : Option Metadata)
    (r : ProcResult) (db' : DB)
    (h : process_content cls env db text ct uid md = (some r, db')) :
    ∃ cl, classification_of cls env ct (preprocessed_of ct text md) md = Except.ok cl ∧
      r = proc_result cls env db text ct uid md cl ∧
      db' = proc_commit db r := by
  unfold process_content at h
  split at h
  · exact absurd (congrArg Prod.fst h) (by simp)
  · split at h
    · exact absurd (congrArg Prod.fst h) (by simp)
    · next cl hcl =>
      split at h
      · exact absurd (congrArg Prod.fst h) (by simp)
      · have h1 := Option.some.inj (congrArg Prod.fst h)
        have h2 := congrArg Prod.snd h
        subst h1
        exact ⟨cl, hcl, rfl, h2.symm⟩

/-- Claim C1: every `process_content` call is atomic — either it fails
(returning the failure sentinel `none`) and the store is exactly as before,
with no row of any kind created, or it succeeds and the `Content` row, its
`ModerationStatus`, its `ContentFlags` and the initial `ModerationAction`
are all appended together in one commit, every row keyed to the same new
content id. -/
theorem claim_C1 (cls : ClassifierIntf) (env : ProcEnv) (db : DB)
    (text : List Char) (ct : String) (uid : Option Nat) (md : Option Metadata) :
    ((process_content cls env db text ct uid md).1 = none ∧
      (process_content cls env db text ct uid md).2 = db) ∨
    (∃ r, (process_content cls env db text ct uid md).1 = some r ∧
      (process_content cls env db text ct uid md).2.contents = db.contents ++ [r.content] ∧
      (process_content cls env db text ct uid md).2.statuses = db.statuses ++ [r.statusRow] ∧
      (process_content cls env db text ct uid md).2.flags = db.flags ++ r.flags ∧
      (process_content cls env db text ct uid md).2.actions = db.actions ++ [r.action] ∧
      (process_content cls env db text ct uid md).2.metrics = db.metrics ∧
      r.statusRow.content_id = r.content.id ∧
      (∀ f ∈ r.flags, f.content_id = r.content.id) ∧
      r.action.content_id = r.content.id) := by
  cases hp : process_content cls env db text ct uid md with
  | mk res db2 =>
    cases res with
    | none =>
      left
      exact ⟨rfl, process_content_fail cls env db text ct uid md db2 hp⟩
    | some r =>
      right
      obtain ⟨cl, hcl, hr, hdb⟩ := process_content_ok cls env db text ct uid md r db2 hp
      subst hdb
      refine ⟨r, rfl, rfl, rfl, rfl, rfl, rfl, ?_, ?_, ?_⟩
      · rw [hr]; rfl
      · rw [hr]
        intro f hf
        exact create_flags_content_id _ _ _ _ _ f hf
      · rw [hr]; rfl

/-! ## Disposition policy, flags, overall score -/

theorem initial_status_rejected_iff (q : ℚ) :
    initial_status q = "rejected" ↔ q > 8/10 := by
  unfold initial_status
  by_cases h1 : q > 8/10
  · simp [h1]
  · rw [if_neg h1]
    by_cases h2 : q < 3/10
    · simp [h2, h1]
    · simp [h2, h1]

theorem initial_status_approved_iff (q : ℚ) :
    initial_status q = "approved" ↔ q < 3/10 := by
  unfold initial_status
  by_cases h1 : q > 8/10
  · have : ¬ q < 3/10 := by intro h2; linarith
    simp [h1, this]
  · rw [if_neg h1]
    by_cases h2 : q < 3/10
    · simp [h2]
    · simp [h2]

theorem foldl_max_init_le (cl : List (String × ℚ)) :
    ∀ a : ℚ, a ≤ cl.foldl (fun m p => max m p.2) a := by
  induction cl with
  | nil => intro a; simp
  | cons p tl ih =>
    intro a
    exact le_trans (le_max_left a p.2) (ih (max a p.2))

theorem foldl_max_le (cl : List (String × ℚ)) :
    ∀ (a : ℚ) (p : String × ℚ), p ∈ cl →
    p.2 ≤ cl.foldl (fun m p => max m p.2) a := by
  induction cl with
  | nil => intro a p hp; simp at hp
  | cons q tl ih =>
    intro a p hp
    rcases List.mem_cons.mp hp with rfl | hp2
    · exact le_trans (le_max_right a p.2) (foldl_max_init_le tl (max a p.2))
    · exact ih (max a q.2) p hp2

theorem foldl_max_mem (cl : List (String × ℚ)) :
    ∀ a : ℚ, cl.foldl (fun m p => max m p.2) a = a ∨
      cl.foldl (fun m p => max m p.2) a ∈ cl.map Prod.snd := by
  induction cl with
  | nil => intro a; exact Or.inl rfl
  | cons q tl ih =>
    intro a
    rcases ih (max a q.2) with h1 | h2
    · rcases max_choice a q.2 with hm | hm
      · exact Or.inl (by rw [List.foldl_cons, h1, hm])
      · refine Or.inr ?_
        rw [List.foldl_cons, h1, hm]
        simp
    · exact Or.inr (by simp [List.foldl_cons]; right; simpa using h2)

theorem assoc_filter_eq_single (cl : List (String × ℚ)) (c : String) (sc : ℚ)
    (hnd : (cl.map Prod.fst).Nodup) (hm : (c, sc) ∈ cl) :
    cl.filter (fun p => p.1 = c) = [(c, sc)] := by
  induction cl with
  | nil => simp at hm
  | cons q tl ih =>
    simp only [List.map_cons, List.nodup_cons] at hnd
    rcases List.mem_cons.mp hm with he | hm2
    · subst he
      rw [List.filter_cons_of_pos (by simp)]
      have : tl.filter (fun p => p.1 = c) = [] := by
        rw [List.filter_eq_nil_iff]
        intro p hp
        simp only [decide_eq_true_eq]
        intro hpc
        exact hnd.1 (hpc ▸ List.mem_map.mpr ⟨p, hp, rfl⟩)
      rw [this]
    · have hq : ¬ (q.1 = c) := by
        intro he
        exact hnd.1 (he ▸ List.mem_map.mpr ⟨(c, sc), hm2, rfl⟩)
      rw [List.filter_cons_of_neg (by simpa using hq)]
      exact ih hnd.2 hm2

theorem create_flags_count (ex : List Char → String → Explanation)
    (pt : List Char) (cid : Nat) (now : Timestamp) (cl : List (String × ℚ))
    (hnd : (cl.map Prod.fst).Nodup) (c : String) (sc : ℚ) (hm : (c, sc) ∈ cl) :
    ((create_flags ex pt cid now cl).filter (fun f => f.flag_type = c)).length =
      if sc > 3/10 then 1 else 0 := by
  rw [create_flags_eq, List.filter_map, List.length_map, List.filter_filter]
  show (cl.filter (fun p => decide (p.1 = c) && decide (p.2 > 3/10))).length = _
  have hsw : cl.filter (fun p => decide (p.1 = c) && decide (p.2 > 3/10)) =
      cl.filter (fun p => decide (p.2 > 3/10) && decide (p.1 = c)) :=
    List.filter_congr (fun p _ => Bool.and_comm _ _)
  rw [hsw, ← List.filter_filter, assoc_filter_eq_single cl c sc hnd hm]
  by_cases hsc : sc > 3/10
  · rw [if_pos hsc, List.filter_cons_of_pos (by simpa using hsc)]
    rfl
  · rw [if_neg hsc, List.filter_cons_of_neg (by simpa using hsc)]
    rfl

theorem create_flags_key_absent (ex : List Char → String → Explanation)
    (pt : List Char) (cid : Nat) (now : Timestamp) (cl : List (String × ℚ))
    (c : String) (hc : c ∉ cl.map Prod.fst) :
    (create_flags ex pt cid now cl).filter (fun f => f.flag_type = c) = [] := by
  rw [create_flags_eq, List.filter_map]
  show ((cl.filter (fun p => decide (p.2 > 3/10))).filter
      (fun p => decide (p.1 = c))).map _ = _
  have hnil : (cl.filter (fun p => decide (p.2 > 3/10))).filter
      (fun p => decide (p.1 = c)) = [] := by
    rw [List.filter_eq_nil_iff]
    intro p hp
    simp only [decide_eq_true_eq]
    intro hpc
    exact hc (hpc ▸ List.mem_map.mpr
      ⟨p, (List.filter_sublist _).subset hp, rfl⟩)
  rw [hnil]
  rfl

/-- Claim C3: on every successful `process_content` call the automated
initial disposition is a function of the stored overall score alone —
`rejected` exactly when the score exceeds 0.8, `approved` exactly when it
is below 0.3, `pending` otherwise — with strict inequalities at both
boundaries: a score of exactly 0.8 is not rejected and a score of exactly
0.3 is not approved (both are pending). -/
theorem claim_C3 (cls : ClassifierIntf) (env : ProcEnv) (db : DB)
    (text : List Char) (ct : String) (uid : Option Nat) (md : Option Metadata)
    (r : ProcResult) (db' : DB)
    (h : process_content cls env db text ct uid md = (some r, db')) :
    r.statusRow.status = initial_status r.statusRow.moderation_score ∧
    (r.statusRow.status = "rejected" ↔ r.statusRow.moderation_score > 8/10) ∧
    (r.statusRow.status = "approved" ↔ r.statusRow.moderation_score < 3/10) ∧
    (r.statusRow.moderation_score = 8/10 → r.statusRow.status = "pending") ∧
    (r.statusRow.moderation_score = 3/10 → r.statusRow.status = "pending") := by
  obtain ⟨cl, hcl, hr, hdb⟩ := process_content_ok cls env db text ct uid md r db' h
  subst hr
  refine ⟨rfl, initial_status_rejected_iff _, initial_status_approved_iff _, ?_, ?_⟩
  · intro he
    show initial_status (overall_score cl) = "pending"
    have h8 : overall_score cl = 8/10 := he
    unfold initial_status
    rw [h8]
    norm_num
  · intro he
    show initial_status (overall_score cl) = "pending"
    have h3 : overall_score cl = 3/10 := he
    unfold initial_status
    rw [h3]
    norm_num

/-- Witness for C3: a concrete call whose overall score is exactly 0.8 is
`pending`, not `rejected`. -/
theorem claim_C3_witness :
    (proc_result cls08 env0 db0 txtHi "text" none none cl08).statusRow.status =
      "pending" :=
  (claim_C3 cls08 env0 db0 txtHi "text" none none
    (proc_result cls08 env0 db0 txtHi "text" none none cl08)
    (proc_commit db0 (proc_result cls08 env0 db0 txtHi "text" none none cl08))
    rfl).2.2.2.1 (by
      show max 0 ((8:ℚ)/10) = 8/10
      exact max_eq_right (by norm_num))

/-- Claim C4: on every successful `process_content` call, with the
per-category classification scores (distinct categories, as produced by the
source's dict), exactly one `ContentFlag` is created per category whose
score strictly exceeds 0.3, none for a category at or below 0.3, and at
most one flag per category overall. -/
theorem claim_C4 (cls : ClassifierIntf) (env : ProcEnv) (db : DB)
    (text : List Char) (ct : String) (uid : Option Nat) (md : Option Metadata)
    (r : ProcResult) (db' : DB) (cl : List (String × ℚ))
    (h : process_content cls env db text ct uid md = (some r, db'))
    (hcl : classification_of cls env ct (preprocessed_of ct text md) md = Except.ok cl)
    (hnd : (cl.map Prod.fst).Nodup) :
    r.flags = create_flags cls.get_explainability (preprocessed_of ct text md)
      db.nextId env.now cl ∧
    (∀ c sc, (c, sc) ∈ cl →
      ((r.flags.filter (fun f => f.flag_type = c)).length =
        if sc > 3/10 then 1 else 0)) ∧
    (∀ f ∈ r.flags, f.flag_score > 3/10) ∧
    (∀ c : String, (r.flags.filter (fun f => f.flag_type = c)).length ≤ 1) := by
  obtain ⟨cl2, hcl2, hr, hdb⟩ := process_content_ok cls env db text ct uid md r db' h
  rw [hcl2] at hcl
  obtain rfl : cl2 = cl := Except.ok.inj hcl
  subst hr
  refine ⟨rfl, ?_, ?_, ?_⟩
  · intro c sc hm
    exact create_flags_count _ _ _ _ cl2 hnd c sc hm
  · intro f hf
    exact create_flags_score _ _ _ _ cl2 f hf
  · intro c
    show ((create_flags cls.get_explainability (preprocessed_of ct text md)
      db.nextId env.now cl2).filter (fun f => f.flag_type = c)).length ≤ 1
    by_cases hc : c ∈ cl2.map Prod.fst
    · rcases List.mem_map.mp hc with ⟨p, hp, rfl⟩
      rw [show ((create_flags cls.get_explainability
          (preprocessed_of ct text md) db.nextId env.now cl2).filter
            (fun f => f.flag_type = p.1)).length =
          if p.2 > 3/10 then 1 else 0 from
        create_flags_count _ _ _ _ cl2 hnd p.1 p.2 hp]
      split <;> omega
    · rw [show (create_flags cls.get_explainability
          (preprocessed_of ct text md) db.nextId env.now cl2).filter
            (fun f => f.flag_type = c) = [] from
        create_flags_key_absent _ _ _ _ cl2 c hc]
      simp

/-- Witness for C4: at the concrete classification with scores 0.29 and
0.31, the 0.29 category produces no flag and the 0.31 category exactly
one. -/
theorem claim_C4_witness :
    (((proc_result cls0 env0 db0 txtHi "text" none none cl0).flags.filter
      (fun f => f.flag_type = "violence")).length = 0) ∧
    (((proc_result cls0 env0 db0 txtHi "text" none none cl0).flags.filter
      (fun f => f.flag_type = "hate_speech")).length = 1) := by
  have h := claim_C4 cls0 env0 db0 txtHi "text" none none
    (proc_result cls0 env0 db0 txtHi "text" none none cl0)
    (proc_commit db0 (proc_result cls0 env0 db0 txtHi "text" none none cl0))
    cl0 rfl rfl (by simp [cl0])
  constructor
  · have h1 := h.2.1 "violence" (29/100) (by norm_num [cl0])
    rwa [if_neg (by norm_num)] at h1
  · have h2 := h.2.1 "hate_speech" (31/100) (by norm_num [cl0])
    rwa [if_pos (by norm_num)] at h2

/-- Claim C5: on every successful `process_content` call the stored overall
moderation score equals the maximum of the per-category classification
scores (it is an upper bound that is attained), not their average. -/
theorem claim_C5 (cls : ClassifierIntf) (env : ProcEnv) (db : DB)
    (text : List Char) (ct : String) (uid : Option Nat) (md : Option Metadata)
    (r : ProcResult) (db' : DB) (cl : List (String × ℚ))
    (h : process_content cls env db text ct uid md = (some r, db'))
    (hcl : classification_of cls env ct (preprocessed_of ct text md) md = Except.ok cl)
    (hne : cl ≠ []) (hnn : ∀ p ∈ cl, 0 ≤ p.2) :
    r.statusRow.moderation_score = overall_score cl ∧
    overall_score cl ∈ cl.map Prod.snd ∧
    (∀ p ∈ cl, p.2 ≤ overall_score cl) := by
  obtain ⟨cl2, hcl2, hr, hdb⟩ := process_content_ok cls env db text ct uid md r db' h
  rw [hcl2] at hcl
  obtain rfl : cl2 = cl := Except.ok.inj hcl
  subst hr
  refine ⟨rfl, ?_, fun p hp => foldl_max_le cl2 0 p hp⟩
  rcases foldl_max_mem cl2 0 with h0 | hm
  · obtain ⟨p, tl, rfl⟩ := List.exists_cons_of_ne_nil hne
    have h1 : p.2 ≤ overall_score (p :: tl) := foldl_max_le _ 0 p (by simp)
    have h2 : overall_score (p :: tl) = 0 := h0
    have h3 : p.2 = 0 := le_antisymm (h2 ▸ h1) (hnn p (by simp))
    rw [h2, ← h3]
    simp
  · exact hm

/-- Witness for C5: the concrete run with scores 0.5, 0.29, 0.31 stores
overall score `overall_score cl0` (= 0.5 = its maximum). -/
theorem claim_C5_witness :
    (proc_result cls0 env0 db0 txtHi "text" none none cl0).statusRow.moderation_score =
      overall_score cl0 ∧ overall_score cl0 ∈ cl0.map Prod.snd :=
  have h := claim_C5 cls0 env0 db0 txtHi "text" none none
    (proc_result cls0 env0 db0 txtHi "text" none none cl0)
    (proc_commit db0 (proc_result cls0 env0 db0 txtHi "text" none none cl0))
    cl0 rfl rfl (by simp [cl0]) (by
      intro p hp
      simp only [cl0, List.mem_cons, List.not_mem_nil, or_false] at hp
      rcases hp with rfl | rfl | rfl <;> norm_num)
  ⟨h.1, h.2.1⟩

/-! ## Status update: audit trail -/

theorem update_notfound (env : UpdEnv) (db : DB) (cid : Nat) (s : String)
    (uid : Option Nat) (notes : Option String)
    (h : db.contents.find? (fun c => c.id = cid) = none ∨
      db.statuses.find? (fun st => st.content_id = cid) = none) :
    update_moderation_status env db cid s uid notes = (none, db) := by
  unfold update_moderation_status
  rcases h with h1 | h2
  · rw [h1]
  · cases hc : db.contents.find? (fun c => c.id = cid) with
    | none => rfl
    | some c => rw [h2]

theorem update_step (env : UpdEnv) (db : DB) (cid : Nat) (s : String)
    (uid : Option Nat) (notes : Option String) (c : ContentRow) (st : StatusRow)
    (hc : db.contents.find? (fun x => x.id = cid) = some c)
    (hs : db.statuses.find? (fun x => x.content_id = cid) = some st)
    (hok : env.commitOk = true) :
    update_moderation_status env db cid s uid notes =
      (some { st with status := s, is_automated := false, last_updated := env.now },
        { db with
            statuses := setStatusRow db.statuses cid
              { st with status := s, is_automated := false, last_updated := env.now }
            actions := db.actions ++
              [{ content_id := cid, user_id := uid, action_type := s,
                 action_notes := notes, previous_status := some st.status,
                 created_at := env.now }] }) := by
  unfold update_moderation_status
  simp only [hc, hs]
  rw [if_neg (by simp [hok])]

theorem find?_setStatusRow (l : List StatusRow) (cid : Nat) (new : StatusRow)
    (hnew : new.content_id = cid) (st : StatusRow)
    (h : l.find? (fun x => x.content_id = cid) = some st) :
    (setStatusRow l cid new).find? (fun x => x.content_id = cid) = some new := by
  induction l with
  | nil => simp [List.find?] at h
  | cons r rs ih =>
    by_cases hr : r.content_id = cid
    · rw [show setStatusRow (r :: rs) cid new = new :: rs by
        simp [setStatusRow, hr]]
      simp [List.find?, hnew]
    · rw [show setStatusRow (r :: rs) cid new = r :: setStatusRow rs cid new by
        simp [setStatusRow, hr]]
      have hd : decide (r.content_id = cid) = false := by simp [hr]
      rw [List.find?_cons] at h ⊢
      simp only [hd] at h ⊢
      exact ih h

theorem audit_trail_spec_some (cid : Nat) :
    ∀ (calls : List UpdCall) (prev : String),
    ∀ a ∈ audit_trail_spec cid prev calls, a.previous_status.isSome := by
  intro calls
  induction calls with
  | nil => intro prev a ha; simp [audit_trail_spec] at ha
  | cons u us ih =>
    intro prev a ha
    rcases List.mem_cons.mp ha with rfl | h2
    · rfl
    · exact ih u.status a h2

theorem audit_trail_spec_length (cid : Nat) :
    ∀ (calls : List UpdCall) (prev : String),
    (audit_trail_spec cid prev calls).length = calls.length := by
  intro calls
  induction calls with
  | nil => intro prev; rfl
  | cons u us ih => intro prev; simp [audit_trail_spec, ih u.status]

theorem run_updates_spec (cid : Nat) :
    ∀ (calls : List UpdCall) (db : DB) (c : ContentRow) (st : StatusRow),
    db.contents.find? (fun x => x.id = cid) = some c →
    db.statuses.find? (fun x => x.content_id = cid) = some st →
    (∀ u ∈ calls, u.env.commitOk = true) →
    actionsFor (run_updates db cid calls) cid =
      actionsFor db cid ++ audit_trail_spec cid st.status calls ∧
    (run_updates db cid calls).statuses.find? (fun x => x.content_id = cid) =
      some (final_status_spec st calls) ∧
    (run_updates db cid calls).contents = db.contents := by
  intro calls
  induction calls with
  | nil =>
    intro db c st hc hs _
    exact ⟨by simp [run_updates, audit_trail_spec],
      by simp [run_updates, hs, final_status_spec], rfl⟩
  | cons u us ih =>
    intro db c st hc hs hok
    have hstep := update_step u.env db cid u.status u.user_id u.notes c st hc hs
      (hok u (by simp))
    have hrun : run_updates db cid (u :: us) =
        run_updates (update_moderation_status u.env db cid u.status u.user_id u.notes).2
          cid us := rfl
    rw [hrun, hstep]
    set st2 : StatusRow :=
      { st with status := u.status, is_automated := false, last_updated := u.env.now }
    set db2 : DB :=
      { db with
          statuses := setStatusRow db.statuses cid st2
          actions := db.actions ++
            [{ content_id := cid, user_id := u.user_id, action_type := u.status,
               action_notes := u.notes, previous_status := some st.status,
               created_at := u.env.now }] }
    have hstcid : st.content_id = cid := by
      have := List.find?_some hs
      simpa using this
    have hc2 : db2.contents.find? (fun x => x.id = cid) = some c := hc
    have hs2 : db2.statuses.find? (fun x => x.content_id = cid) = some st2 :=
      find?_setStatusRow db.statuses cid st2 hstcid st hs
    obtain ⟨ha, hf, hcon⟩ := ih db2 c st2 hc2 hs2 (fun v hv => hok v (by simp [hv]))
    refine ⟨?_, ?_, hcon⟩
    · rw [ha]
      have : actionsFor db2 cid = actionsFor db cid ++
          [{ content_id := cid, user_id := u.user_id, action_type := u.status,
             action_notes := u.notes, previous_status := some st.status,
             created_at := u.env.now }] := by
        show List.filter _ (db.actions ++ _) = _
        rw [List.filter_append]
        simp [actionsFor, List.filter]
      rw [this]
      simp [audit_trail_spec]
    · exact hf

/-- Claim C2: for every content id whose `Content` row and
`ModerationStatus` exist, a sequence of N `update_moderation_status` calls
appends exactly N `ModerationAction` rows for that id, each carrying a
non-null `previous_status` equal to the disposition immediately before that
call and the requested status as its action type; each call overwrites the
disposition, clears the automated flag and stamps the update time.  If the
`Content` row or the `ModerationStatus` is absent, the call fails
(`NotFound`) and mutates nothing. -/
theorem claim_C2 (db : DB) (cid : Nat) (calls : List UpdCall) :
    (∀ (env : UpdEnv) (s : String) (uid : Option Nat) (notes : Option String),
      (db.contents.find? (fun x => x.id = cid) = none ∨
        db.statuses.find? (fun x => x.content_id = cid) = none) →
      update_moderation_status env db cid s uid notes = (none, db)) ∧
    (∀ (c : ContentRow) (st : StatusRow),
      db.contents.find? (fun x => x.id = cid) = some c →
      db.statuses.find? (fun x => x.content_id = cid) = some st →
      (∀ u ∈ calls, u.env.commitOk = true) →
      actionsFor (run_updates db cid calls) cid =
        actionsFor db cid ++ audit_trail_spec cid st.status calls ∧
      (actionsFor (run_updates db cid calls) cid).length =
        (actionsFor db cid).length + calls.length ∧
      (∀ a ∈ audit_trail_spec cid st.status calls, a.previous_status.isSome) ∧
      (run_updates db cid calls).statuses.find? (fun x => x.content_id = cid) =
        some (final_status_spec st calls)) := by
  constructor
  · intro env s uid notes h
    exact update_notfound env db cid s uid notes h
  · intro c st hc hs hok
    obtain ⟨ha, hf, _⟩ := run_updates_spec cid calls db c st hc hs hok
    refine ⟨ha, ?_, audit_trail_spec_some cid calls st.status, hf⟩
    rw [ha, List.length_append, audit_trail_spec_length cid calls st.status]

/-- Witness for C2: two successive overrides on the concrete store `db1`
append exactly the two predicted audit rows. -/
theorem claim_C2_witness :
    actionsFor (run_updates db1 1 calls2) 1 =
      actionsFor db1 1 ++ audit_trail_spec 1 "pending" calls2 ∧
    (actionsFor (run_updates db1 1 calls2) 1).length =
      (actionsFor db1 1).length + calls2.length := by
  have h := (claim_C2 db1 1 calls2).2 ⟨1, none, "text", "x".toList, "x".toList, none, ts0⟩
    ⟨1, "pending", 1/2, true, ts0, some 1⟩ rfl rfl
    (by intro u hu; simp [calls2] at hu; rcases hu with rfl | rfl <;> rfl)
  exact ⟨h.1, h.2.1⟩

/-- Claim C10 (implicit): the core `update_moderation_status` performs no
validation of the requested status value — for an arbitrary string `s`
(including values outside approved/rejected) a call on an existing content
id succeeds, writes `s` verbatim as the disposition and as the appended
action's `action_type`, and reports success.  (The `invalid status`
rejection lives only in the excluded HTTP layer, `routes/admin.py`.) -/
theorem claim_C10 (env : UpdEnv) (db : DB) (cid : Nat) (s : String)
    (uid : Option Nat) (notes : Option String) (c : ContentRow) (st : StatusRow)
    (hc : db.contents.find? (fun x => x.id = cid) = some c)
    (hs : db.statuses.find? (fun x => x.content_id = cid) = some st)
    (hok : env.commitOk = true) :
    ∃ upd db2, update_moderation_status env db cid s uid notes = (some upd, db2) ∧
      upd.status = s ∧ upd.is_automated = false ∧
      db2.actions = db.actions ++
        [{ content_id := cid, user_id := uid, action_type := s,
           action_notes := notes, previous_status := some st.status,
           created_at := env.now }] := by
  rw [update_step env db cid s uid notes c st hc hs hok]
  exact ⟨_, _, rfl, rfl, rfl, rfl⟩

/-- Witness for C10: the out-of-vocabulary status `"bananas"` is accepted
verbatim on the concrete store `db1`. -/
theorem claim_C10_witness :
    ∃ upd db2,
      update_moderation_status uenv0 db1 1 "bananas" (some 9) none = (some upd, db2) ∧
      upd.status = "bananas" ∧ upd.is_automated = false ∧
      db2.actions = db1.actions ++
        [{ content_id := 1, user_id := some 9, action_type := "bananas",
           action_notes := none, previous_status := some "pending",
           created_at := uenv0.now }] :=
  claim_C10 uenv0 db1 1 "bananas" (some 9) none
    ⟨1, none, "text", "x".toList, "x".toList, none, ts0⟩
    ⟨1, "pending", 1/2, true, ts0, some 1⟩ rfl rfl rfl

/-! ## Metrics aggregation: idempotence per (date, type) -/

theorem metricTypesFor_append (today : Nat) (a b : List MetricRow) :
    metricTypesFor today (a ++ b) =
      metricTypesFor today a ++ metricTypesFor today b := by
  simp [metricTypesFor, List.filter_append]

theorem generate_daily_metrics_skip (env : MetricsEnv) (db : DB)
    (h1 : "daily_processed" ∈ metricTypesFor env.today db.metrics)
    (h2 : "flag_distribution" ∈ metricTypesFor env.today db.metrics)
    (h3 : "status_distribution" ∈ metricTypesFor env.today db.metrics)
    (h4 : "avg_processing_time" ∈ metricTypesFor env.today db.metrics)
    (hok : env.commitOk = true) :
    generate_daily_metrics env db = (true, db) := by
  simp only [generate_daily_metrics]
  rw [if_pos h1, if_pos h2, if_pos h3, if_pos h4, if_neg (by simp [hok])]
  simp

theorem generate_daily_metrics_types (env : MetricsEnv) (db : DB)
    (hok : env.commitOk = true) (t : String)
    (ht : t = "daily_processed" ∨ t = "flag_distribution" ∨
      t = "status_distribution" ∨ t = "avg_processing_time") :
    t ∈ metricTypesFor env.today (generate_daily_metrics env db).2.metrics := by
  simp only [generate_daily_metrics]
  rw [if_neg (by simp [hok])]
  rcases ht with rfl | rfl | rfl | rfl
  · by_cases h : "daily_processed" ∈ metricTypesFor env.today db.metrics
    · simp [metricTypesFor_append, h]
    · rw [if_neg h]
      simp [metricTypesFor_append, metricTypesFor]
  · by_cases h : "flag_distribution" ∈ metricTypesFor env.today db.metrics
    · simp [metricTypesFor_append, h]
    · rw [if_neg h]
      simp [metricTypesFor_append, metricTypesFor]
  · by_cases h : "status_distribution" ∈ metricTypesFor env.today db.metrics
    · simp [metricTypesFor_append, h]
    · rw [if_neg h]
      simp [metricTypesFor_append, metricTypesFor]
  · by_cases h : "avg_processing_time" ∈ metricTypesFor env.today db.metrics
    · simp [metricTypesFor_append, h]
    · rw [if_neg h]
      simp [metricTypesFor_append, metricTypesFor]

/-- Claim C8: daily metrics generation is idempotent per (date, metric
type) — a first successful call only appends rows, and a second successful
call for the same date is a strict no-op: it creates no new rows,
overwrites nothing (the store is returned exactly unchanged), and still
reports success. -/
theorem claim_C8 (env1 env2 : MetricsEnv) (db : DB)
    (h1 : env1.commitOk = true) (h2 : env2.commitOk = true)
    (hd : env2.today = env1.today) :
    generate_daily_metrics env2 (generate_daily_metrics env1 db).2 =
      (true, (generate_daily_metrics env1 db).2) ∧
    ∃ new, (generate_daily_metrics env1 db).2.metrics = db.metrics ++ new := by
  constructor
  · apply generate_daily_metrics_skip env2 _ ?_ ?_ ?_ ?_ h2 <;>
      (rw [hd]; exact generate_daily_metrics_types env1 db h1 _ (by simp))
  · simp only [generate_daily_metrics]
    rw [if_neg (by simp [h1])]
    simp only [List.append_assoc]
    exact ⟨_, rfl⟩

/-- Witness for C8: a second run on the concrete store `dbM` for the same
day leaves the store exactly as after the first run. -/
theorem claim_C8_witness :
    generate_daily_metrics menv0 (generate_daily_metrics menv0 dbM).2 =
      (true, (generate_daily_metrics menv0 dbM).2) :=
  (claim_C8 menv0 menv0 dbM rfl rfl rfl).1

/-! ## Training evaluation: guarded ratios -/

/-- Claim C9: `evaluate_category` computes precision, recall and F1 with
guarded denominators — each is a literal 0 whenever its denominator is 0,
so no division error can occur; in particular, when every label in the
evaluated column is 0 (so there are no positive labels), precision, recall
and F1 all resolve to 0. -/
theorem claim_C9 (getScore : List Char → ℚ) (threshold : ℚ)
    (texts : List (List Char)) (labels : List Nat) :
    (eval_tp (eval_predictions getScore threshold texts) labels +
        eval_fp (eval_predictions getScore threshold texts) labels = 0 →
      (evaluate_category getScore threshold texts labels).precision = 0) ∧
    (eval_tp (eval_predictions getScore threshold texts) labels +
        eval_fn (eval_predictions getScore threshold texts) labels = 0 →
      (evaluate_category getScore threshold texts labels).recall_score = 0) ∧
    ((evaluate_category getScore threshold texts labels).precision +
        (evaluate_category getScore threshold texts labels).recall_score = 0 →
      (evaluate_category getScore threshold texts labels).f1_score = 0) ∧
    ((∀ l ∈ labels, l = 0) →
      (evaluate_category getScore threshold texts labels).precision = 0 ∧
      (evaluate_category getScore threshold texts labels).recall_score = 0 ∧
      (evaluate_category getScore threshold texts labels).f1_score = 0) := by
  simp only [evaluate_category]
  refine ⟨?_, ?_, ?_, ?_⟩
  · intro h
    rw [if_neg (by omega)]
  · intro h
    rw [if_neg (by omega)]
  · intro h
    rw [if_neg (by rw [h]; norm_num)]
  · intro hall
    have htp : eval_tp (eval_predictions getScore threshold texts) labels = 0 := by
      simp only [eval_tp, List.length_eq_zero, List.filter_eq_nil_iff]
      intro p hp
      have h2 := hall p.2 (List.of_mem_zip hp).2
      simp [h2]
    have hfn : eval_fn (eval_predictions getScore threshold texts) labels = 0 := by
      simp only [eval_fn, List.length_eq_zero, List.filter_eq_nil_iff]
      intro p hp
      have h2 := hall p.2 (List.of_mem_zip hp).2
      simp [h2]
    refine ⟨?_, ?_, ?_⟩
    · simp [htp]
    · simp [htp, hfn]
    · simp [htp, hfn]

/-- Witness for C9: a dataset whose label column is all zeros yields
precision, recall and F1 all 0. -/
theorem claim_C9_witness :
    (evaluate_category (fun _ => 1) (1/2) [txtHi] [0]).precision = 0 ∧
    (evaluate_category (fun _ => 1) (1/2) [txtHi] [0]).recall_score = 0 ∧
    (evaluate_category (fun _ => 1) (1/2) [txtHi] [0]).f1_score = 0 :=
  (claim_C9 (fun _ => 1) (1/2) [txtHi] [0]).2.2.2 (by intro l hl; simpa using hl)

/-! ## Classification engine: totality, bounds and fallbacks -/

theorem uniform01_09_bounds (r : ℚ) (h0 : 0 ≤ r) (h1 : r < 1) :
    1/10 ≤ uniform01_09 r ∧ uniform01_09 r < 9/10 := by
  unfold uniform01_09
  constructor <;> nlinarith

theorem generate_random_keys (rng : Nat → ℚ) :
    ∀ (cats : List String) (k : Nat),
    (generate_random_classification cats rng k).map Prod.fst = cats := by
  intro cats
  induction cats with
  | nil => intro k; rfl
  | cons c cs ih => intro k; simp [generate_random_classification, ih]

theorem generate_random_bounds (rng : Nat → ℚ)
    (hr : ∀ n, 0 ≤ rng n ∧ rng n < 1) :
    ∀ (cats : List String) (k : Nat) (p : String × ℚ),
    p ∈ generate_random_classification cats rng k →
    1/10 ≤ p.2 ∧ p.2 < 9/10 := by
  intro cats
  induction cats with
  | nil => intro k p hp; simp [generate_random_classification] at hp
  | cons c cs ih =>
    intro k p hp
    rcases List.mem_cons.mp hp with rfl | h2
    · exact uniform01_09_bounds (rng k) (hr k).1 (hr k).2
    · exact ih (k + 1) p h2

theorem classifyLoop_keys (pairs : List (String × CatModel)) (rng : Nat → ℚ)
    (text : List Char) :
    ∀ (cats : List String) (k : Nat),
    (classifyLoop pairs rng text k cats).map Prod.fst = cats := by
  intro cats
  induction cats with
  | nil => intro k; rfl
  | cons c cs ih =>
    intro k
    unfold classifyLoop
    cases h : pairs.lookup c with
    | none => simp [ih]
    | some m => cases m <;> simp [ih]

theorem classifyLoop_bounds (pairs : List (String × CatModel)) (rng : Nat → ℚ)
    (text : List Char) (hr : ∀ n, 0 ≤ rng n ∧ rng n < 1) :
    ∀ (cats : List String) (k : Nat) (p : String × ℚ),
    p ∈ classifyLoop pairs rng text k cats →
    (∃ f, pairs.lookup p.1 = some (CatModel.fitted f) ∧ p.2 = f text) ∨
      (1/10 ≤ p.2 ∧ p.2 < 9/10) := by
  intro cats
  induction cats with
  | nil => intro k p hp; simp [classifyLoop] at hp
  | cons c cs ih =>
    intro k p hp
    unfold classifyLoop at hp
    cases h : pairs.lookup c with
    | none =>
      rw [h] at hp
      rcases List.mem_cons.mp hp with rfl | h2
      · exact Or.inr (uniform01_09_bounds (rng k) (hr k).1 (hr k).2)
      · exact ih (k + 1) p h2
    | some m =>
      cases m with
      | fitted f =>
        rw [h] at hp
        rcases List.mem_cons.mp hp with rfl | h2
        · exact Or.inl ⟨f, h, rfl⟩
        · exact ih k p h2
      | broken =>
        rw [h] at hp
        rcases List.mem_cons.mp hp with rfl | h2
        · exact Or.inr (uniform01_09_bounds (rng k) (hr k).1 (hr k).2)
        · exact ih (k + 1) p h2
      | absent =>
        rw [h] at hp
        rcases List.mem_cons.mp hp with rfl | h2
        · exact Or.inr (uniform01_09_bounds (rng k) (hr k).1 (hr k).2)
        · exact ih (k + 1) p h2

/-- Claim C6, amended: `classify_text` is total (it never raises to the
caller) and, whenever the random draws lie in `[0,1)` (the documented range
of `random.random()`) and each fitted model's positive-class probability
lies in `[0,1]` (the sklearn `predict_proba` contract), it returns one
score per known category, every score lies in `[0,1]`, every category
without a usable fitted model (missing, unfitted, or failing) gets an
independently drawn fallback score in the half-open interval `[0.1, 0.9)`
for that category only, and when no model exists at all every category gets
such a fallback score.  (The claim's open interval `(0.1, 0.9)` is refuted
by `claim_C6_counterexample`: `random.uniform(0.1, 0.9)` attains 0.1.) -/
theorem claim_C6 (st : ClassifierState) (rng : Nat → ℚ) (text : List Char)
    (hr : ∀ n, 0 ≤ rng n ∧ rng n < 1)
    (hp : ∀ c f, st.pairs.lookup c = some (CatModel.fitted f) →
      0 ≤ f text ∧ f text ≤ 1) :
    ((classify_text st rng text).map Prod.fst = st.categories) ∧
    (∀ p ∈ classify_text st rng text, 0 ≤ p.2 ∧ p.2 ≤ 1) ∧
    (∀ p ∈ classify_text st rng text,
      (∀ f, st.pairs.lookup p.1 ≠ some (CatModel.fitted f)) →
      1/10 ≤ p.2 ∧ p.2 < 9/10) ∧
    (st.pairs = [] → ∀ p ∈ classify_text st rng text,
      1/10 ≤ p.2 ∧ p.2 < 9/10) := by
  unfold classify_text
  by_cases he : st.pairs.isEmpty
  · rw [if_pos he]
    refine ⟨generate_random_keys rng st.categories 0, ?_, ?_, ?_⟩
    · intro p hp2
      have := generate_random_bounds rng hr st.categories 0 p hp2
      constructor <;> linarith [this.1, this.2]
    · intro p hp2 _
      exact generate_random_bounds rng hr st.categories 0 p hp2
    · intro _ p hp2
      exact generate_random_bounds rng hr st.categories 0 p hp2
  · rw [if_neg he]
    refine ⟨classifyLoop_keys st.pairs rng text st.categories 0, ?_, ?_, ?_⟩
    · intro p hp2
      rcases classifyLoop_bounds st.pairs rng text hr st.categories 0 p hp2 with
        ⟨f, hf, hv⟩ | hb
      · rw [hv]
        exact hp p.1 f hf
      · constructor <;> linarith [hb.1, hb.2]
    · intro p hp2 hnf
      rcases classifyLoop_bounds st.pairs rng text hr st.categories 0 p hp2 with
        ⟨f, hf, _⟩ | hb
      · exact absurd hf (hnf f)
      · exact hb
    · intro hnil
      exact absurd (by simp [hnil] : st.pairs.isEmpty = true) he

/-- Witness for C6: with no model at all and draws of 1/2, every category
gets a score, all in range. -/
theorem claim_C6_witness :
    ((classify_text stNoModel rngHalf txtHi).map Prod.fst = stNoModel.categories) ∧
    (∀ p ∈ classify_text stNoModel rngHalf txtHi, 0 ≤ p.2 ∧ p.2 ≤ 1) :=
  have h := claim_C6 stNoModel rngHalf txtHi
    (fun _ => by constructor <;> norm_num [rngHalf])
    (fun c f hf => by simp [stNoModel, List.lookup] at hf)
  ⟨h.1, h.2.1⟩

/-- Counterexample refuting C6 as stated: the fallback score is not always
in the open interval (0.1, 0.9).  `random.random()` may return 0 — then
`random.uniform(0.1, 0.9) = 0.1 + 0.8 * 0 = 0.1` exactly, and 0.1 is not
strictly greater than 0.1. -/
theorem claim_C6_counterexample :
    classify_text stNoModel rngZero [] = [("profanity", 1/10)] ∧
    ¬ ((1 : ℚ)/10 < 1/10) := by
  constructor
  · simp only [classify_text, stNoModel, rngZero]
    norm_num [generate_random_classification, uniform01_09, rngZero]
  · norm_num

end ContentModeration
